import Mathlib

/-!
# mini-search: verification of the hybrid retrieval pipeline

Shallow embedding of the core of `mini-search` (crawler.rs, transformers.rs,
main.rs, index.rs).  External collaborators (the spider fetcher, the scraper
HTML engine, the tantivy index, the candle/BERT encoder) are modelled as
function parameters; everything the repository itself computes is translated
directly from the source.

`f32` values are carried as their 32-bit patterns (`Nat` below `2 ^ 32`);
this is exact for the byte codec and for `f32::total_cmp`, neither of which
performs floating-point arithmetic.
-/

namespace MiniSearch

/-! ## Embedding byte codec

Write side, `crawler.rs` lines 51–57: the `Vec<f32>` is reinterpreted in
place as `len * 4` bytes (host little-endian order).
Read side, `main.rs` lines 134–142: the stored bytes are reinterpreted as
`len / 4` consecutive `f32`s (integer division, same host order). -/

/-- One `f32` (as its 32-bit pattern) laid out as its 4 bytes, host
(little-endian) order — the in-memory layout `core::slice::from_raw_parts`
exposes in `crawler.rs`. -/
def encodeF32 (w : Nat) : List Nat :=
  [w % 256, w / 256 % 256, w / 256 ^ 2 % 256, w / 256 ^ 3 % 256]

/-- `crawler.rs` 51–57: the whole embedding as a byte string, 4 bytes per
element, in element order. -/
def encodeEmbedding : List Nat → List Nat
  | [] => []
  | w :: ws => encodeF32 w ++ encodeEmbedding ws

/-- `main.rs` 134–142: reinterpret a byte string as `len / 4` consecutive
`f32`s.  Each group of 4 bytes becomes one 32-bit pattern; a trailing
remainder of fewer than 4 bytes contributes nothing. -/
def decodeEmbedding : List Nat → List Nat
  | b0 :: b1 :: b2 :: b3 :: rest =>
      (b0 + 256 * b1 + 256 ^ 2 * b2 + 256 ^ 3 * b3) :: decodeEmbedding rest
  | _ => []

/-! ## Rerank sort (`transformers.rs` 104–134)

`sort_by_similarity` enumerates the candidates, computes one `f32` cosine
similarity per candidate (floating-point arithmetic, kept abstract as a
function parameter), and then runs Rust's stable `sort_by` with the
comparator `|a, b| b.1.total_cmp(&a.1)` — descending by IEEE-754
`totalOrder` on the similarity bit patterns. -/

/-- The monotone key realised by `f32::total_cmp` on a 32-bit pattern: the
bits themselves for a clear sign bit, and the order-reversed complement for a
set sign bit (Rust flips the low 31 bits of negative patterns and compares as
`i32`). -/
def simKey (bits : Nat) : Int :=
  if bits < 2 ^ 31 then (bits : Int) else -((bits - 2 ^ 31 : Nat) + 1 : Int)

/-- `a` may precede `b` in the descending sort: the comparator
`b.1.total_cmp(&a.1)` does not answer `Greater`. -/
def simDescLe (a b : Nat × Nat) : Prop := simKey b.2 ≤ simKey a.2

instance : DecidableRel simDescLe :=
  fun a b => inferInstanceAs (Decidable (simKey b.2 ≤ simKey a.2))

/-- The sort of `transformers.rs` line 131: Rust's `sort_by` is a stable sort,
so the result is the unique permutation that is non-descending for the
comparator and keeps comparator-equal elements in input order — which is what
insertion sort with `simDescLe` produces. -/
def sortSimilarities (sims : List (Nat × Nat)) : List (Nat × Nat) :=
  sims.insertionSort simDescLe

/-- `transformers.rs` 104–134 as a whole: enumerate the candidates, attach
the cosine-similarity bit pattern (`cosSim`, the floating-point kernel of
lines 116–124, abstract), and sort.  Returns `(original index, similarity)`
pairs. -/
def sort_by_similarity (cosSim : List Nat → List Nat → Nat) (query : List Nat)
    (candidates : List (List Nat)) : List (Nat × Nat) :=
  sortSimilarities ((List.range candidates.length).zip (candidates.map (cosSim query)))

/-- A 32-bit pattern is a NaN: exponent all ones, mantissa nonzero
(sign bit ignored). -/
def isNaNBits (b : Nat) : Bool := 255 * 2 ^ 23 < b % 2 ^ 31

/-- Sorted-and-stable order for the descending rerank: strictly larger key
first, and at equal keys the smaller original index first. -/
def simSLt (a b : Nat × Nat) : Prop :=
  simKey b.2 < simKey a.2 ∨ (simKey a.2 = simKey b.2 ∧ a.1 < b.1)

/-! ## Crawl-ingestion pipeline (`crawler.rs` 12–74)

The spider fetch collaborator delivers the pages (`w.get_pages()`), the
scraper collaborator delivers the selected elements, and the encoder
collaborator delivers embeddings; the loop body — URL check, inclusion
predicate, body/title assembly, byte encoding, per-document write+commit,
counter — is translated from the source. -/

/-- One fetched page, as the crawl loop sees it: the result of
`page.get_url_parsed()` (`none` when URL parsing failed) and the raw HTML. -/
structure Page where
  urlParsed : Option String
  html : String

/-- The external collaborators used by the crawl loop.  `extractBlocks` is
the scraper's `select("p, h1, h2, h3, h4")`, each element given as its list
of text fragments (`elem.text()`); `titleInner` is
`select("title").next().map(inner_html)`; `embed` is
`SentEmbed::generate_embedding`, yielding `f32` bit patterns, `none` on an
inference error (which `?` turns into a crawl-fatal `Err`). -/
structure CrawlerEnv where
  extractBlocks : String → List (List String)
  titleInner : String → Option String
  embed : String → Option (List Nat)

/-- A persisted document (`MiniDoc` in `main.rs`; the tantivy schema of
`index.rs`): `url`, `title`, `body` text plus the embedding byte string. -/
structure MiniDoc where
  url : String
  title : String
  body : String
  embedding : List Nat
  deriving DecidableEq, Repr

/-- `crawler.rs` 38–42: the texts of all `p, h1..h4` elements, fragments
joined with `" "`, elements joined with `" "`, in document order. -/
def mkBody (env : CrawlerEnv) (html : String) : String :=
  String.intercalate " " ((env.extractBlocks html).map (fun ts => String.intercalate " " ts))

/-- `crawler.rs` 44–48: the title element's inner HTML, or the page URL
string when the page has no title element. -/
def mkTitle (env : CrawlerEnv) (html url : String) : String :=
  (env.titleInner html).getD url

/-- The document the loop body assembles for an accepted page
(`crawler.rs` 59–64), with the embedding already byte-encoded. -/
def docOfPage (env : CrawlerEnv) (p : Page) (url : String) (emb : List Nat) : MiniDoc :=
  { url := url
    title := mkTitle env p.html url
    body := mkBody env p.html
    embedding := encodeEmbedding emb }

/-- The `'index` loop of `crawler.rs` 30–71.  State: `total` (the counter)
and `docs` (the documents written-and-committed so far; one commit per
document, so they persist even if the run later errors).  Result: the final
document list, and `some total` on success — `none` when an embedding error
aborted the run via `?` (the write collaborator is assumed to succeed).
The cap test `total == 10_000` runs at the top of each iteration. -/
def crawlLoop (env : CrawlerEnv) (isGoodUrl : String → Bool) :
    List Page → Nat → List MiniDoc → List MiniDoc × Option Nat
  | [], total, docs => (docs, some total)
  | p :: ps, total, docs =>
    if total = 10000 then (docs, some total)
    else
      match p.urlParsed with
      | none => crawlLoop env isGoodUrl ps total docs
      | some url =>
        if isGoodUrl url then
          match env.embed (mkTitle env p.html url) with
          | none => (docs, none)
          | some emb =>
              crawlLoop env isGoodUrl ps (total + 1) (docs ++ [docOfPage env p url emb])
        else crawlLoop env isGoodUrl ps total docs

/-- `crawl` of `crawler.rs`: run the loop from an empty index state over the
pages the fetch collaborator returned. -/
def crawl (env : CrawlerEnv) (isGoodUrl : String → Bool) (pages : List Page) :
    List MiniDoc × Option Nat :=
  crawlLoop env isGoodUrl pages 0 []

/-! ## Hybrid query handler (`main.rs` 71–217) -/

/-- One rendered search result (`Res` in `main.rs`). -/
structure Res where
  url : String
  title : String
  snippet : String
  deriving DecidableEq, Repr

/-- The query-time collaborators.  `lexDocs` is the lexical branch's
collaborator chain `parse_query` → `searcher.search(TopDocs(20))` →
`searcher.doc(..)`, returning the fetched candidate documents in relevance
order; `embedQ` is `generate_embedding(query).ok()`; `cosSim` is the
floating-point cosine kernel of `transformers.rs` 116–124 (abstract, returns
the similarity's `f32` bit pattern); `snippet` is tantivy's snippet
generator applied to a query and a body. -/
structure SearchEnv where
  lexDocs : String → List MiniDoc
  embedQ : String → Option (List Nat)
  cosSim : List Nat → List Nat → Nat
  snippet : String → String → String

/-- The `search` handler of `main.rs` 71–217.  First component: whether the
lexical index was queried (`parse_query` + `searcher.search` run in the
`Some` branch, lines 110–117, for any present query — empty or not; the
`None` branch, lines 209–216, renders the empty view without touching the
index).  Second component: the rendered results, `none` when the request
died on `embedding.unwrap()` (line 158). -/
def handler (env : SearchEnv) (q : Option String) : Bool × Option (List Res) :=
  match q with
  | none => (false, some [])
  | some q =>
    let cands := env.lexDocs q
    let withEmb := cands.map (fun c => (decodeEmbedding c.embedding, c))
    match env.embedQ q with
    | none => (true, none)
    | some qe =>
      let scores := sort_by_similarity env.cosSim qe (withEmb.map (fun x => x.1))
      (true, some ((scores.take 10).map (fun s =>
        match withEmb[s.1]? with
        | some x => { url := x.2.url, title := x.2.title, snippet := env.snippet q x.2.body }
        | none => { url := "", title := "", snippet := "" })))

/-- Projection of a stored document to the fields that do not involve the
extracted body text (used to state that the body has no influence on the
stored embedding). -/
def docSem (d : MiniDoc) : String × String × List Nat := (d.url, d.title, d.embedding)

/-! Concrete fixtures for the closed witnesses and counterexamples. -/

/-- A crawler environment whose pages yield one block with fragments
`["a", "b"]`, no title element, and embedding `[5]`. -/
def envW : CrawlerEnv := ⟨fun _ => [["a", "b"]], fun _ => none, fun _ => some [5]⟩

/-- A crawler environment whose pages extract to empty content (no block
elements at all), with title element text `"T"` and embedding `[1]`. -/
def envE : CrawlerEnv := ⟨fun _ => [], fun _ => some "T", fun _ => some [1]⟩

/-- A page whose URL parses as `"u"`. -/
def pageW : Page := ⟨some "u", "h"⟩

/-- A degenerate query-time environment: no lexical candidates, an empty
query embedding, constant cosine kernel and snippet generator. -/
def envS : SearchEnv := ⟨fun _ => [], fun _ => some [], fun _ _ => 0, fun _ _ => ""⟩

end MiniSearch

namespace MiniSearch

/-! ## Basic codec lemmas -/

theorem decodeEmbedding_encodeF32_cons (w : Nat) (hw : w < 2 ^ 32) (rest : List Nat) :
    decodeEmbedding (encodeF32 w ++ rest) = w :: decodeEmbedding rest := by
  simp only [encodeF32, List.cons_append, List.nil_append, decodeEmbedding]
  congr 1
  omega

theorem decodeEmbedding_encodeEmbedding (e : List Nat) (h : ∀ w ∈ e, w < 2 ^ 32) :
    decodeEmbedding (encodeEmbedding e) = e := by
  induction e with
  | nil => rfl
  | cons w ws ih =>
      rw [encodeEmbedding, decodeEmbedding_encodeF32_cons w (h w (List.mem_cons_self w ws))]
      rw [ih (fun x hx => h x (List.mem_cons_of_mem w hx))]

theorem encodeEmbedding_length (e : List Nat) :
    (encodeEmbedding e).length = 4 * e.length := by
  induction e with
  | nil => rfl
  | cons w ws ih =>
      simp only [encodeEmbedding, encodeF32, List.length_append, List.length_cons, ih]
      simp [List.length]
      omega

theorem decodeEmbedding_length (bs : List Nat) :
    (decodeEmbedding bs).length = bs.length / 4 := by
  induction bs using decodeEmbedding.induct with
  | case1 b0 b1 b2 b3 rest ih =>
      simp only [decodeEmbedding, List.length_cons, ih]
      omega
  | case2 bs h =>
      rcases bs with _ | ⟨b0, _ | ⟨b1, _ | ⟨b2, _ | ⟨b3, rest⟩⟩⟩⟩
      · simp [decodeEmbedding]
      · simp [decodeEmbedding]
      · simp [decodeEmbedding]
      · simp [decodeEmbedding]
      · exact ((h b0 b1 b2 b3 rest rfl)).elim

theorem decodeEmbedding_take (bs : List Nat) :
    decodeEmbedding bs = decodeEmbedding (bs.take (4 * (bs.length / 4))) := by
  induction bs using decodeEmbedding.induct with
  | case1 b0 b1 b2 b3 rest ih =>
      have hlen : (b0 :: b1 :: b2 :: b3 :: rest).length = rest.length + 4 := by
        simp [List.length]
      have h4 : 4 * ((rest.length + 4) / 4) = 4 * (rest.length / 4) + 4 := by omega
      rw [hlen, h4]
      simp only [List.take_succ_cons, decodeEmbedding]
      rw [← ih]
  | case2 bs h =>
      rcases bs with _ | ⟨b0, _ | ⟨b1, _ | ⟨b2, _ | ⟨b3, rest⟩⟩⟩⟩
      · simp [decodeEmbedding]
      · simp [decodeEmbedding]
      · simp [decodeEmbedding]
      · simp [decodeEmbedding]
      · exact ((h b0 b1 b2 b3 rest rfl)).elim

/-- C1: the query-time decode is the exact inverse of the write-time encode:
for every embedding (list of 32-bit `f32` patterns), decoding the stored byte
string reproduces it element for element, bit for bit; the byte string holds
4 bytes per element and decodes back to `len / 4` elements. -/
theorem embedding_roundtrip (e : List Nat) (h : ∀ w ∈ e, w < 2 ^ 32) :
    decodeEmbedding (encodeEmbedding e) = e ∧
    (encodeEmbedding e).length = 4 * e.length ∧
    (decodeEmbedding (encodeEmbedding e)).length = (encodeEmbedding e).length / 4 := by
  refine ⟨decodeEmbedding_encodeEmbedding e h, encodeEmbedding_length e, ?_⟩
  rw [decodeEmbedding_encodeEmbedding e h, encodeEmbedding_length e]
  omega

theorem embedding_roundtrip_witness :
    decodeEmbedding (encodeEmbedding [0, 1065353216, 4290772992]) = [0, 1065353216, 4290772992] :=
  (embedding_roundtrip [0, 1065353216, 4290772992] (by decide)).1

/-- C10: the decode computes the element count as `len / 4` with integer
division, so it is a total function of the byte string: a length that is not
a multiple of 4 does not fault — the trailing 1–3 bytes are silently dropped
and a shorter vector (of exactly `len / 4` elements) comes back. -/
theorem decode_drops_trailing_bytes (bs : List Nat) :
    (decodeEmbedding bs).length = bs.length / 4 ∧
    decodeEmbedding bs = decodeEmbedding (bs.take (4 * (bs.length / 4))) :=
  ⟨decodeEmbedding_length bs, decodeEmbedding_take bs⟩

end MiniSearch

namespace MiniSearch

/-! ## Rerank sort: stability, order, permutation -/

theorem simSLt_orderedInsert (x : Nat × Nat) (s : List (Nat × Nat))
    (hs : s.Pairwise simSLt) (hx : ∀ y ∈ s, x.1 < y.1) :
    (List.orderedInsert simDescLe x s).Pairwise simSLt := by
  induction s with
  | nil => simp [simSLt]
  | cons y ys ih =>
      rw [List.orderedInsert]
      by_cases h : simDescLe x y
      · rw [if_pos h]
        rw [List.pairwise_cons]
        refine ⟨?_, hs⟩
        intro z hz
        have hzx : simKey z.2 ≤ simKey x.2 := by
          rcases List.mem_cons.1 hz with rfl | hz'
          · exact h
          · have := List.rel_of_pairwise_cons hs hz'
            rcases this with hlt | ⟨heq, _⟩
            · exact le_trans (le_of_lt hlt) h
            · exact le_trans (le_of_eq heq.symm) h
        rcases lt_or_eq_of_le hzx with hlt | heq
        · exact Or.inl hlt
        · exact Or.inr ⟨heq.symm, hx z hz⟩
      · rw [if_neg h]
        rw [List.pairwise_cons]
        constructor
        · intro z hz
          rcases (List.mem_orderedInsert simDescLe).1 hz with rfl | hz'
          · exact Or.inl (lt_of_not_le h)
          · exact List.rel_of_pairwise_cons hs hz'
        · exact ih (List.pairwise_cons.1 hs).2
            (fun z hz => hx z (List.mem_cons_of_mem y hz))

theorem simSLt_insertionSort (l : List (Nat × Nat))
    (hl : l.Pairwise (fun a b => a.1 < b.1)) :
    (List.insertionSort simDescLe l).Pairwise simSLt := by
  induction l with
  | nil => simp
  | cons x t ih =>
      rw [List.insertionSort]
      rw [List.pairwise_cons] at hl
      exact simSLt_orderedInsert x _ (ih hl.2)
        (fun y hy => hl.1 y ((List.mem_insertionSort simDescLe).1 hy))

theorem zip_range_pairwise (vals : List Nat) :
    ((List.range vals.length).zip vals).Pairwise (fun a b : Nat × Nat => a.1 < b.1) := by
  have h : List.map Prod.fst ((List.range vals.length).zip vals) = List.range vals.length :=
    List.map_fst_zip _ _ (by simp)
  have hp : List.Pairwise (fun a b : Nat => a < b)
      (List.map Prod.fst ((List.range vals.length).zip vals)) := by
    rw [h]; exact List.pairwise_lt_range _
  exact List.pairwise_map.1 hp

/-- C2 counterexample: a candidate whose similarity is a NaN with clear sign
bit (pattern `0x7FC00000`) is placed first — before a non-NaN candidate — by
the descending `total_cmp` sort, not at the end as the claim states. -/
theorem nan_similarity_sorts_first :
    isNaNBits 2143289344 = true ∧ isNaNBits 1065353216 = false ∧
    sortSimilarities [(0, 2143289344), (1, 1065353216)] =
      [(0, 2143289344), (1, 1065353216)] := by
  refine ⟨by decide, by decide, by decide⟩

/-- C2 (amended): the rerank sort is the stable descending sort by
`f32::total_cmp` (IEEE-754 `totalOrder`): the output is ordered by strictly
decreasing key, with candidates of equal similarity kept in their original
lexical-retrieval (enumeration) order; the comparison is total, so it never
faults; and NaN similarities sort by their sign bit — a NaN with set sign bit
below every non-NaN (hence at the end of the descending order), a NaN with
clear sign bit above every non-NaN (hence at the front, not the end). -/
theorem sort_stable_desc_totalOrder (vals : List Nat) :
    (sortSimilarities ((List.range vals.length).zip vals)).Pairwise simSLt ∧
    (∀ a b : Nat × Nat, simDescLe a b ∨ simDescLe b a) ∧
    (∀ m n : Nat, isNaNBits m = true → 2 ^ 31 ≤ m → m < 2 ^ 32 →
      isNaNBits n = false → n < 2 ^ 32 → simKey m < simKey n) ∧
    (∀ m n : Nat, isNaNBits m = true → m < 2 ^ 31 →
      isNaNBits n = false → n < 2 ^ 32 → simKey n < simKey m) := by
  refine ⟨simSLt_insertionSort _ (zip_range_pairwise vals), ?_, ?_, ?_⟩
  · intro a b
    rcases le_total (simKey b.2) (simKey a.2) with h | h
    · exact Or.inl h
    · exact Or.inr h
  · intro m n hm hs hm32 hn hn32
    simp only [isNaNBits, decide_eq_true_eq, decide_eq_false_iff_not, not_lt] at hm hn
    simp only [simKey]
    split_ifs <;> omega
  · intro m n hm hs hn hn32
    simp only [isNaNBits, decide_eq_true_eq, decide_eq_false_iff_not, not_lt] at hm hn
    simp only [simKey]
    split_ifs <;> omega

theorem sort_stable_desc_totalOrder_witness :
    (sortSimilarities ((List.range 2).zip [2143289344, 1065353216])).Pairwise simSLt ∧
    simKey 4290772992 < simKey 0 := by
  constructor
  · exact (sort_stable_desc_totalOrder [2143289344, 1065353216]).1
  · exact (sort_stable_desc_totalOrder []).2.2.1 4290772992 0
      (by decide) (by decide) (by decide) (by decide) (by decide)

end MiniSearch

namespace MiniSearch

/-! ## Crawl loop: step equations and invariants -/

theorem crawlLoop_cap {env : CrawlerEnv} {g : String → Bool} {p : Page}
    {ps : List Page} {total : Nat} {docs : List MiniDoc} (h : total = 10000) :
    crawlLoop env g (p :: ps) total docs = (docs, some total) := by
  rw [crawlLoop, if_pos h]

theorem crawlLoop_badUrl {env : CrawlerEnv} {g : String → Bool} {p : Page}
    {ps : List Page} {total : Nat} {docs : List MiniDoc}
    (h : ¬total = 10000) (hp : p.urlParsed = none) :
    crawlLoop env g (p :: ps) total docs = crawlLoop env g ps total docs := by
  rw [crawlLoop, if_neg h, hp]

theorem crawlLoop_notIncluded {env : CrawlerEnv} {g : String → Bool} {p : Page}
    {ps : List Page} {total : Nat} {docs : List MiniDoc} {url : String}
    (h : ¬total = 10000) (hp : p.urlParsed = some url) (hg : g url = false) :
    crawlLoop env g (p :: ps) total docs = crawlLoop env g ps total docs := by
  rw [crawlLoop, if_neg h, hp]
  simp only [hg, Bool.false_eq_true, if_false]

theorem crawlLoop_embedErr {env : CrawlerEnv} {g : String → Bool} {p : Page}
    {ps : List Page} {total : Nat} {docs : List MiniDoc} {url : String}
    (h : ¬total = 10000) (hp : p.urlParsed = some url) (hg : g url = true)
    (he : env.embed (mkTitle env p.html url) = none) :
    crawlLoop env g (p :: ps) total docs = (docs, none) := by
  rw [crawlLoop, if_neg h, hp]
  simp only [hg, if_true, he]

theorem crawlLoop_write {env : CrawlerEnv} {g : String → Bool} {p : Page}
    {ps : List Page} {total : Nat} {docs : List MiniDoc} {url : String}
    {emb : List Nat} (h : ¬total = 10000) (hp : p.urlParsed = some url)
    (hg : g url = true) (he : env.embed (mkTitle env p.html url) = some emb) :
    crawlLoop env g (p :: ps) total docs =
      crawlLoop env g ps (total + 1) (docs ++ [docOfPage env p url emb]) := by
  rw [crawlLoop, if_neg h, hp]
  simp only [hg, if_true, he]

theorem crawlLoop_append (env : CrawlerEnv) (g : String → Bool) (pages : List Page) :
    ∀ (total : Nat) (docs : List MiniDoc),
      ∃ rest, (crawlLoop env g pages total docs).1 = docs ++ rest := by
  induction pages with
  | nil => exact fun total docs => ⟨[], by simp [crawlLoop]⟩
  | cons p ps ih =>
      intro total docs
      by_cases h : total = 10000
      · exact ⟨[], by rw [crawlLoop_cap h]; simp⟩
      · cases hp : p.urlParsed with
        | none => rw [crawlLoop_badUrl h hp]; exact ih total docs
        | some url =>
            cases hg : g url with
            | false => rw [crawlLoop_notIncluded h hp hg]; exact ih total docs
            | true =>
                cases he : env.embed (mkTitle env p.html url) with
                | none => exact ⟨[], by rw [crawlLoop_embedErr h hp hg he]; simp⟩
                | some emb =>
                    rw [crawlLoop_write h hp hg he]
                    obtain ⟨rest, hr⟩ := ih (total + 1) (docs ++ [docOfPage env p url emb])
                    exact ⟨docOfPage env p url emb :: rest, by rw [hr]; simp⟩

theorem crawlLoop_mem (env : CrawlerEnv) (g : String → Bool) (pages : List Page) :
    ∀ (total : Nat) (docs : List MiniDoc) (d : MiniDoc),
      d ∈ (crawlLoop env g pages total docs).1 →
      d ∈ docs ∨ ∃ p ∈ pages, ∃ url emb, p.urlParsed = some url ∧ g url = true ∧
        env.embed (mkTitle env p.html url) = some emb ∧ d = docOfPage env p url emb := by
  induction pages with
  | nil => intro total docs d hd; exact Or.inl hd
  | cons p ps ih =>
      intro total docs d hd
      by_cases h : total = 10000
      · rw [crawlLoop_cap h] at hd; exact Or.inl hd
      · cases hp : p.urlParsed with
        | none =>
            rw [crawlLoop_badUrl h hp] at hd
            rcases ih total docs d hd with hl | ⟨p', hp', rest⟩
            · exact Or.inl hl
            · exact Or.inr ⟨p', List.mem_cons_of_mem p hp', rest⟩
        | some url =>
            cases hg : g url with
            | false =>
                rw [crawlLoop_notIncluded h hp hg] at hd
                rcases ih total docs d hd with hl | ⟨p', hp', rest⟩
                · exact Or.inl hl
                · exact Or.inr ⟨p', List.mem_cons_of_mem p hp', rest⟩
            | true =>
                cases he : env.embed (mkTitle env p.html url) with
                | none => rw [crawlLoop_embedErr h hp hg he] at hd; exact Or.inl hd
                | some emb =>
                    rw [crawlLoop_write h hp hg he] at hd
                    rcases ih (total + 1) (docs ++ [docOfPage env p url emb]) d hd with
                      hl | ⟨p', hp', rest⟩
                    · rcases List.mem_append.1 hl with hl' | hl'
                      · exact Or.inl hl'
                      · refine Or.inr ⟨p, List.mem_cons_self p ps, url, emb, hp, hg, he, ?_⟩
                        simpa using hl'
                    · exact Or.inr ⟨p', List.mem_cons_of_mem p hp', rest⟩

theorem crawlLoop_count (env : CrawlerEnv) (g : String → Bool) (pages : List Page) :
    ∀ (total : Nat) (docs : List MiniDoc), total = docs.length → total ≤ 10000 →
      ((crawlLoop env g pages total docs).1.length ≤ 10000 ∧
       ((crawlLoop env g pages total docs).2 = none ∨
        (crawlLoop env g pages total docs).2 =
          some (crawlLoop env g pages total docs).1.length)) := by
  induction pages with
  | nil =>
      intro total docs ht hle
      refine ⟨by simpa [crawlLoop] using ht ▸ hle, Or.inr ?_⟩
      simp [crawlLoop, ht]
  | cons p ps ih =>
      intro total docs ht hle
      by_cases h : total = 10000
      · rw [crawlLoop_cap h]
        refine ⟨?_, Or.inr ?_⟩
        · simp only []
          omega
        · simp [ht]
      · cases hp : p.urlParsed with
        | none => rw [crawlLoop_badUrl h hp]; exact ih total docs ht hle
        | some url =>
            cases hg : g url with
            | false => rw [crawlLoop_notIncluded h hp hg]; exact ih total docs ht hle
            | true =>
                cases he : env.embed (mkTitle env p.html url) with
                | none =>
                    rw [crawlLoop_embedErr h hp hg he]
                    refine ⟨?_, Or.inl rfl⟩
                    simp only []
                    omega
                | some emb =>
                    rw [crawlLoop_write h hp hg he]
                    exact ih (total + 1) (docs ++ [docOfPage env p url emb])
                      (by simp [ht]) (by omega)

theorem crawlLoop_bodyBlind (env1 env2 : CrawlerEnv) (g : String → Bool)
    (ht : env1.titleInner = env2.titleInner) (he : env1.embed = env2.embed)
    (pages : List Page) :
    ∀ (total : Nat) (docs1 docs2 : List MiniDoc),
      docs1.map docSem = docs2.map docSem →
      (crawlLoop env1 g pages total docs1).1.map docSem
        = (crawlLoop env2 g pages total docs2).1.map docSem ∧
      (crawlLoop env1 g pages total docs1).2 = (crawlLoop env2 g pages total docs2).2 := by
  have hmk : ∀ html url, mkTitle env1 html url = mkTitle env2 html url := by
    intro html url; simp [mkTitle, ht]
  induction pages with
  | nil => intro total docs1 docs2 hd; simpa [crawlLoop] using hd
  | cons p ps ih =>
      intro total docs1 docs2 hd
      by_cases h : total = 10000
      · rw [crawlLoop_cap h, crawlLoop_cap h]; exact ⟨hd, rfl⟩
      · cases hp : p.urlParsed with
        | none => rw [crawlLoop_badUrl h hp, crawlLoop_badUrl h hp]; exact ih total _ _ hd
        | some url =>
            cases hg : g url with
            | false =>
                rw [crawlLoop_notIncluded h hp hg, crawlLoop_notIncluded h hp hg]
                exact ih total _ _ hd
            | true =>
                cases hemb : env1.embed (mkTitle env1 p.html url) with
                | none =>
                    have hemb2 : env2.embed (mkTitle env2 p.html url) = none := by
                      rw [← hmk p.html url, ← he]; exact hemb
                    rw [crawlLoop_embedErr h hp hg hemb, crawlLoop_embedErr h hp hg hemb2]
                    exact ⟨hd, rfl⟩
                | some emb =>
                    have hemb2 : env2.embed (mkTitle env2 p.html url) = some emb := by
                      rw [← hmk p.html url, ← he]; exact hemb
                    rw [crawlLoop_write h hp hg hemb, crawlLoop_write h hp hg hemb2]
                    refine ih (total + 1) _ _ ?_
                    simp only [List.map_append, hd, List.map_cons, List.map_nil]
                    congr 2
                    simp [docSem, docOfPage, hmk p.html url]

end MiniSearch

namespace MiniSearch

/-- C4: in any crawl run, every document written to the index has a URL the
inclusion predicate accepted; the document counter (a `Nat`, hence
non-negative) equals the number of documents written — it grows by exactly
one per indexed page — and the number of indexed documents never exceeds the
page cap of 10,000. -/
theorem crawl_include_and_cap (env : CrawlerEnv) (g : String → Bool) (pages : List Page) :
    (crawl env g pages).1.all (fun d => g d.url) = true ∧
    (crawl env g pages).1.length ≤ 10000 ∧
    ((crawl env g pages).2 = none ∨
     (crawl env g pages).2 = some (crawl env g pages).1.length) := by
  refine ⟨?_, ?_, ?_⟩
  · rw [List.all_eq_true]
    intro d hd
    rcases crawlLoop_mem env g pages 0 [] d hd with hl | ⟨p, _, url, emb, _, hg, _, hdoc⟩
    · simp at hl
    · simp only [hdoc, docOfPage]
      exact hg
  · exact (crawlLoop_count env g pages 0 [] rfl (by omega)).1
  · exact (crawlLoop_count env g pages 0 [] rfl (by omega)).2

/-- C3: the stored embedding of every indexed page is computed from the
page's title alone: each written document's embedding is the byte encoding of
`embed(title)`, and two crawler environments that agree on title extraction
and on the encoder — but may extract body text arbitrarily differently —
write the same URL, title and embedding for every document (same counter
outcome too); the body has no influence on the stored embedding. -/
theorem embedding_from_title_only (env1 env2 : CrawlerEnv) (g : String → Bool)
    (pages : List Page) (ht : env1.titleInner = env2.titleInner)
    (he : env1.embed = env2.embed) :
    (∀ d ∈ (crawl env1 g pages).1, ∃ emb, env1.embed d.title = some emb ∧
      d.embedding = encodeEmbedding emb) ∧
    (crawl env1 g pages).1.map docSem = (crawl env2 g pages).1.map docSem ∧
    (crawl env1 g pages).2 = (crawl env2 g pages).2 := by
  refine ⟨?_, ?_, ?_⟩
  · intro d hd
    rcases crawlLoop_mem env1 g pages 0 [] d hd with hl | ⟨p, _, url, emb, _, _, hemb, hdoc⟩
    · simp at hl
    · refine ⟨emb, ?_, by simp [hdoc, docOfPage]⟩
      rw [hdoc]
      simpa [docOfPage] using hemb
  · exact (crawlLoop_bodyBlind env1 env2 g ht he pages 0 [] [] rfl).1
  · exact (crawlLoop_bodyBlind env1 env2 g ht he pages 0 [] [] rfl).2

theorem embedding_from_title_only_witness :
    (mkTitle envW pageW.html "u" = "u" ∧ mkTitle envE pageW.html "u" = "T") ∧
    ∃ emb, envW.embed (docOfPage envW pageW "u" [5]).title = some emb ∧
      (docOfPage envW pageW "u" [5]).embedding = encodeEmbedding emb := by
  refine ⟨⟨rfl, rfl⟩, ?_⟩
  refine (embedding_from_title_only envW envW (fun _ => true) [pageW] rfl rfl).1
    (docOfPage envW pageW "u" [5]) ?_
  have hc : crawl envW (fun _ => true) [pageW] = ([docOfPage envW pageW "u" [5]], some 1) := by
    rw [crawl, crawlLoop_write (by omega) rfl rfl rfl]
    rfl
  rw [hc]
  exact List.mem_singleton.2 rfl

/-- C9: every document a crawl writes comes from one of the fetched pages,
with `body` the text of the selected paragraph/heading block elements —
fragments joined by single spaces, blocks joined by single spaces, in
document order, with no length cap — and `title` the title element's inner
text, falling back to the page's URL string when no title element exists. -/
theorem extraction_body_title (env : CrawlerEnv) (g : String → Bool)
    (pages : List Page) :
    ∀ d ∈ (crawl env g pages).1, ∃ p ∈ pages, ∃ url,
      p.urlParsed = some url ∧ d.url = url ∧
      d.body = String.intercalate " "
        ((env.extractBlocks p.html).map (fun ts => String.intercalate " " ts)) ∧
      d.title = (env.titleInner p.html).getD url ∧
      (env.titleInner p.html = none → d.title = url) := by
  intro d hd
  rcases crawlLoop_mem env g pages 0 [] d hd with hl | ⟨p, hp, url, emb, hpu, _, _, hdoc⟩
  · simp at hl
  · refine ⟨p, hp, url, hpu, ?_, ?_, ?_, ?_⟩
    · simp [hdoc, docOfPage]
    · simp [hdoc, docOfPage, mkBody]
    · simp [hdoc, docOfPage, mkTitle]
    · intro hnone
      simp [hdoc, docOfPage, mkTitle, hnone]

theorem extraction_body_title_witness :
    ∃ p ∈ [pageW], ∃ url, p.urlParsed = some url ∧
      (docOfPage envW pageW "u" [5]).url = url ∧
      (docOfPage envW pageW "u" [5]).body = String.intercalate " "
        ((envW.extractBlocks p.html).map (fun ts => String.intercalate " " ts)) ∧
      (docOfPage envW pageW "u" [5]).title = (envW.titleInner p.html).getD url ∧
      (envW.titleInner p.html = none → (docOfPage envW pageW "u" [5]).title = url) := by
  refine extraction_body_title envW (fun _ => true) [pageW] (docOfPage envW pageW "u" [5]) ?_
  have hc : crawl envW (fun _ => true) [pageW] = ([docOfPage envW pageW "u" [5]], some 1) := by
    rw [crawl, crawlLoop_write (by omega) rfl rfl rfl]
    rfl
  rw [hc]
  exact List.mem_singleton.2 rfl

/-- C6 counterexample: a page whose extracted content is empty is NOT
skipped.  In `envE` every page's block selection is empty, so the extracted
body is `""` — yet the crawl writes a document for it and increments the
counter to 1. -/
theorem empty_body_page_indexed :
    mkBody envE pageW.html = "" ∧
    crawl envE (fun _ => true) [pageW] =
      ([{ url := "u", title := "T", body := "", embedding := [1, 0, 0, 0] }], some 1) := by
  constructor
  · rfl
  · rw [crawl, crawlLoop_write (by omega) rfl rfl rfl]
    rfl

/-- C6 (amended): a page whose URL fails to parse is skipped non-fatally —
the crawl continues with the remaining pages and neither writes a document
nor touches the counter — but a page whose extracted content is empty is NOT
skipped: if its URL parses, is included, and the title embeds, the page is
indexed (a document with empty `body` is written, at the front of this run's
output) and counted like any other page. -/
theorem crawl_skip_and_empty_body (env : CrawlerEnv) (g : String → Bool)
    (p : Page) (ps : List Page) :
    (p.urlParsed = none → crawl env g (p :: ps) = crawl env g ps) ∧
    (∀ url emb, p.urlParsed = some url → g url = true →
      env.embed (mkTitle env p.html url) = some emb → mkBody env p.html = "" →
      (crawl env g (p :: ps)).1.head? = some (docOfPage env p url emb) ∧
      (docOfPage env p url emb).body = "") := by
  constructor
  · intro hp
    rw [crawl, crawl, crawlLoop_badUrl (by omega) hp]
  · intro url emb hp hg he hb
    refine ⟨?_, by simp [docOfPage, hb]⟩
    rw [crawl, crawlLoop_write (by omega) hp hg he]
    obtain ⟨rest, hr⟩ := crawlLoop_append env g ps 1 ([] ++ [docOfPage env p url emb])
    rw [hr]
    simp

theorem crawl_skip_and_empty_body_witness :
    crawl envE (fun _ => true) [⟨none, "h"⟩, pageW] = crawl envE (fun _ => true) [pageW] ∧
    (crawl envE (fun _ => true) [pageW]).1.head? = some (docOfPage envE pageW "u" [1]) ∧
    (docOfPage envE pageW "u" [1]).body = "" := by
  refine ⟨(crawl_skip_and_empty_body envE (fun _ => true) ⟨none, "h"⟩ [pageW]).1 rfl, ?_⟩
  exact (crawl_skip_and_empty_body envE (fun _ => true) pageW []).2 "u" [1] rfl rfl rfl rfl

end MiniSearch

namespace MiniSearch

/-- C7: the reranked list is a permutation of the candidate set, truncated to
`min(10, |candidates|)`: the indices `sort_by_similarity` returns are exactly
the candidate indices `0..n`, each exactly once (so every emitted index is a
distinct valid index), and the handler emits the first `min(10, |candidates|)`
of them. -/
theorem rerank_permutation_truncation (cos : List Nat → List Nat → Nat)
    (q : List Nat) (cands : List (List Nat)) :
    ((sort_by_similarity cos q cands).map Prod.fst).Perm (List.range cands.length) ∧
    ((sort_by_similarity cos q cands).take 10).length = min 10 cands.length ∧
    (((sort_by_similarity cos q cands).take 10).map Prod.fst).Nodup ∧
    (∀ i ∈ ((sort_by_similarity cos q cands).take 10).map Prod.fst, i < cands.length) ∧
    (∀ (env : SearchEnv) (qs : String) (qe : List Nat), env.embedQ qs = some qe →
      (handler env (some qs)).2.map List.length = some (min 10 (env.lexDocs qs).length)) := by
  have hperm : (sort_by_similarity cos q cands).Perm
      ((List.range cands.length).zip (cands.map (cos q))) :=
    List.perm_insertionSort simDescLe _
  have hmap : ((sort_by_similarity cos q cands).map Prod.fst).Perm
      (List.range cands.length) := by
    have h2 := hperm.map Prod.fst
    rwa [List.map_fst_zip _ _ (by simp)] at h2
  have hlen : (sort_by_similarity cos q cands).length = cands.length := by
    simp [sort_by_similarity, sortSimilarities, List.length_insertionSort]
  refine ⟨hmap, ?_, ?_, ?_, ?_⟩
  · rw [List.length_take, hlen]
  · have hnd : ((sort_by_similarity cos q cands).map Prod.fst).Nodup :=
      hmap.nodup_iff.2 (List.nodup_range _)
    rw [List.map_take]
    exact (List.take_sublist _ _).nodup hnd
  · intro i hi
    rw [List.map_take] at hi
    exact List.mem_range.1 (hmap.mem_iff.1 (List.mem_of_mem_take hi))
  · intro env qs qe hq
    simp [handler, hq, sort_by_similarity, sortSimilarities,
      List.length_take, List.length_insertionSort]

theorem rerank_permutation_truncation_witness :
    ((sort_by_similarity (fun _ _ => 0) [] [[1], [2]]).map Prod.fst).Perm (List.range 2) ∧
    envS.embedQ "w" = some [] ∧
    (handler envS (some "w")).2.map List.length = some (min 10 (envS.lexDocs "w").length) := by
  refine ⟨?_, rfl, ?_⟩
  · exact (rerank_permutation_truncation (fun _ _ => 0) [] [[1], [2]]).1
  · exact (rerank_permutation_truncation (fun _ _ => 0) [] []).2.2.2.2 envS "w" [] rfl

/-- C5 counterexample: a present-but-empty query string does NOT bypass the
index.  The handler branches only on presence of the parameter, so for
`q = Some("")` it takes the search branch, where `parse_query` and
`searcher.search` run unconditionally — an index query IS issued. -/
theorem empty_query_queries_index : (handler envS (some "")).1 = true := rfl

/-- C5 (amended): a present-but-empty query string runs the full search
pipeline — the lexical index is queried — and yields zero results when the
lexical collaborator returns no candidates for the empty query; only an
absent query parameter returns the empty results view without touching the
index. -/
theorem empty_query_zero_results (env : SearchEnv) (qe : List Nat)
    (hl : env.lexDocs "" = []) (hq : env.embedQ "" = some qe) :
    (handler env (some "")).1 = true ∧
    (handler env (some "")).2 = some [] ∧
    handler env none = (false, some []) := by
  refine ⟨?_, ?_, rfl⟩
  · simp [handler, hq]
  · simp [handler, hl, hq, sort_by_similarity, sortSimilarities]

theorem empty_query_zero_results_witness :
    envS.lexDocs "" = [] ∧ envS.embedQ "" = some [] ∧
    (handler envS (some "")).2 = some [] :=
  ⟨rfl, rfl, (empty_query_zero_results envS [] rfl rfl).2.1⟩

end MiniSearch
